import Mathlib

/-!
Verification of the memguard secure-buffer core (src/core/buffer.go).

The development shallowly embeds the buffer layout computed by `NewBuffer`,
the byte contents of the allocation, the buffer lifecycle
(`NewBuffer`, `Freeze`, `Melt`, `DestroyBuffer`) together with the global
registry, and the `BufferList` registry operations (`Add`, `Remove`,
`Exists`, `Empty`) with a Go-slice heap model that tracks aliasing.
-/

namespace Memguard

/-- A view into the allocated byte region: offset and length.  This is the
Go slice header of a subslice of `b.memory` as produced by `getBytes`. -/
structure Slice where
  off : Nat
  len : Nat
  deriving DecidableEq, Repr

/-- Modelled from the spec: the core helper `roundToPageSize` is not under
src/; the spec defines it as `roundUp(length, P)`, the least multiple of the
page size that is at least `length`. -/
def roundToPageSize (pageSize length : Nat) : Nat :=
  ((length + pageSize - 1) / pageSize) * pageSize

theorem le_roundToPageSize (pageSize length : Nat) (hP : 0 < pageSize) :
    length ≤ roundToPageSize pageSize length := by
  unfold roundToPageSize
  have h1 := Nat.div_add_mod (length + pageSize - 1) pageSize
  have h2 : (length + pageSize - 1) % pageSize < pageSize :=
    Nat.mod_lt _ hP
  rw [Nat.mul_comm]
  generalize hm :
    pageSize * ((length + pageSize - 1) / pageSize) = m at h1 ⊢
  omega

theorem roundToPageSize_dvd (pageSize length : Nat) :
    pageSize ∣ roundToPageSize pageSize length :=
  Dvd.intro_left _ rfl

/-- The slice headers and length bookkeeping computed by `NewBuffer`
(src/core/buffer.go lines 60 to 76). -/
structure BufLayout where
  innerLen : Nat
  memLen : Nat
  Data : Slice
  preguard : Slice
  inner : Slice
  postguard : Slice
  canaryref : Slice
  canaryval : Slice
  deriving DecidableEq, Repr

/-- Layout part of `NewBuffer(size)`: `innerLen := roundToPageSize (size+32)`,
the allocation is `2*pageSize + innerLen` bytes, and the five sub-slices are
placed exactly as in src/core/buffer.go lines 60 to 76. -/
def newBufferLayout (pageSize size : Nat) : BufLayout :=
  let innerLen := roundToPageSize pageSize (size + 32)
  { innerLen := innerLen
    memLen := 2 * pageSize + innerLen
    Data := ⟨pageSize + innerLen - size, size⟩
    preguard := ⟨0, pageSize⟩
    inner := ⟨pageSize, innerLen⟩
    postguard := ⟨pageSize + innerLen, pageSize⟩
    canaryref := ⟨pageSize - 32, 32⟩
    canaryval := ⟨pageSize + innerLen - size - 32, 32⟩ }

theorem size_add_32_le_innerLen (pageSize size : Nat) (hP : 0 < pageSize) :
    size + 32 ≤ (newBufferLayout pageSize size).innerLen :=
  le_roundToPageSize pageSize (size + 32) hP

/-- `roundToPageSize P P = P` for `0 < P`. -/
theorem roundToPageSize_self (pageSize : Nat) (hP : 0 < pageSize) :
    roundToPageSize pageSize pageSize = pageSize := by
  unfold roundToPageSize
  have h1 : pageSize + pageSize - 1 = (pageSize - 1) + pageSize := by omega
  rw [h1, Nat.add_div_right _ hP, Nat.div_eq_of_lt (by omega)]
  omega

/-- `roundToPageSize P (P+1) = 2*P` for `0 < P`. -/
theorem roundToPageSize_succ (pageSize : Nat) (hP : 0 < pageSize) :
    roundToPageSize pageSize (pageSize + 1) = 2 * pageSize := by
  unfold roundToPageSize
  have h1 : pageSize + 1 + pageSize - 1 = 2 * pageSize := by omega
  rw [h1, Nat.mul_div_cancel _ hP]

/-- C1: for every successful `NewBuffer(size)` the data view has length
`size`, `innerLen = roundToPageSize (size + 32)`, the allocation has length
`2*P + innerLen`, the preguard and postguard are exactly `P` bytes at the
very start and very end of the allocation, the data view occupies the last
`size` bytes of the inner region, and at the boundary sizes `P - 32` and
`P - 31` the inner length is `P` and `2*P` respectively.  The OS page size
exceeds 32 bytes, hence the hypothesis `32 < P`. -/
theorem newBuffer_layout_spec (pageSize size : Nat)
    (hP : 32 < pageSize) (hs : 1 ≤ size) :
    (newBufferLayout pageSize size).Data.len = size ∧
    (newBufferLayout pageSize size).innerLen =
      roundToPageSize pageSize (size + 32) ∧
    (newBufferLayout pageSize size).memLen =
      2 * pageSize + (newBufferLayout pageSize size).innerLen ∧
    (newBufferLayout pageSize size).preguard = ⟨0, pageSize⟩ ∧
    (newBufferLayout pageSize size).postguard.len = pageSize ∧
    (newBufferLayout pageSize size).postguard.off + pageSize =
      (newBufferLayout pageSize size).memLen ∧
    (newBufferLayout pageSize size).Data.off =
      (newBufferLayout pageSize size).inner.off +
        (newBufferLayout pageSize size).inner.len - size ∧
    (newBufferLayout pageSize size).Data.off +
        (newBufferLayout pageSize size).Data.len =
      (newBufferLayout pageSize size).inner.off +
        (newBufferLayout pageSize size).inner.len ∧
    (newBufferLayout pageSize (pageSize - 32)).innerLen = pageSize ∧
    (newBufferLayout pageSize (pageSize - 31)).innerLen = 2 * pageSize := by
  have hP0 : 0 < pageSize := by omega
  have hle : size + 32 ≤ roundToPageSize pageSize (size + 32) :=
    le_roundToPageSize pageSize (size + 32) hP0
  have h32 : pageSize - 32 + 32 = pageSize := by omega
  have h31 : pageSize - 31 + 32 = pageSize + 1 := by omega
  refine ⟨rfl, rfl, rfl, rfl, rfl, by simp [newBufferLayout]; omega,
    rfl, ?_, ?_, ?_⟩
  · simp only [newBufferLayout]
    omega
  · simp only [newBufferLayout, h32, roundToPageSize_self pageSize hP0]
  · simp only [newBufferLayout, h31, roundToPageSize_succ pageSize hP0]

/-- Closed witness for `newBuffer_layout_spec` at `P = 4096`, `size = 32`. -/
theorem newBuffer_layout_spec_witness :
    (newBufferLayout 4096 32).Data.len = 32 ∧
    (newBufferLayout 4096 32).innerLen = roundToPageSize 4096 64 ∧
    (newBufferLayout 4096 32).memLen =
      2 * 4096 + (newBufferLayout 4096 32).innerLen ∧
    (newBufferLayout 4096 32).preguard = ⟨0, 4096⟩ ∧
    (newBufferLayout 4096 32).postguard.len = 4096 ∧
    (newBufferLayout 4096 32).postguard.off + 4096 =
      (newBufferLayout 4096 32).memLen ∧
    (newBufferLayout 4096 32).Data.off =
      (newBufferLayout 4096 32).inner.off +
        (newBufferLayout 4096 32).inner.len - 32 ∧
    (newBufferLayout 4096 32).Data.off + (newBufferLayout 4096 32).Data.len =
      (newBufferLayout 4096 32).inner.off +
        (newBufferLayout 4096 32).inner.len ∧
    (newBufferLayout 4096 (4096 - 32)).innerLen = 4096 ∧
    (newBufferLayout 4096 (4096 - 31)).innerLen = 2 * 4096 :=
  newBuffer_layout_spec 4096 32 (by decide) (by decide)

/-! ### Byte contents of the allocation -/

/-- Write the bytes `bs` into memory `m` starting at offset `off`.
This is the effect of filling a Go subslice of `m` of length `bs.length`
based at `off` (all writes performed by `NewBuffer` are in bounds). -/
def writeBytes (m : List Nat) (off : Nat) (bs : List Nat) : List Nat :=
  m.take off ++ bs ++ m.drop (off + bs.length)

/-- The bytes visible through slice header `s` of memory `m`. -/
def readSliceBytes (m : List Nat) (s : Slice) : List Nat :=
  (m.drop s.off).take s.len

theorem length_writeBytes (m bs : List Nat) (off : Nat)
    (h : off + bs.length ≤ m.length) :
    (writeBytes m off bs).length = m.length := by
  simp [writeBytes]
  omega

theorem readSliceBytes_take (m : List Nat) (s : Slice) (k : Nat)
    (h : s.off + s.len ≤ k) :
    readSliceBytes (m.take k) s = readSliceBytes m s := by
  unfold readSliceBytes
  rw [List.drop_take, List.take_take, Nat.min_eq_left (by omega)]

/-- Reading back exactly the bytes just written. -/
theorem readSliceBytes_writeBytes (m bs : List Nat) (off : Nat)
    (h : off + bs.length ≤ m.length) :
    readSliceBytes (writeBytes m off bs) ⟨off, bs.length⟩ = bs := by
  unfold readSliceBytes writeBytes
  have hlen : (m.take off).length = off := by
    simp
    omega
  rw [List.append_assoc, List.drop_left' hlen, List.take_left' rfl]

/-- A write at or above `off` does not disturb a read that ends at or
below `off`. -/
theorem readSliceBytes_writeBytes_below (m bs : List Nat) (off : Nat)
    (s : Slice) (hm : off ≤ m.length) (h : s.off + s.len ≤ off) :
    readSliceBytes (writeBytes m off bs) s = readSliceBytes m s := by
  have hlen : (m.take off).length = off := by
    simp
    omega
  have h1 : (writeBytes m off bs).take off = m.take off := by
    unfold writeBytes
    rw [List.append_assoc, List.take_left' hlen]
  calc readSliceBytes (writeBytes m off bs) s
      = readSliceBytes ((writeBytes m off bs).take off) s :=
        (readSliceBytes_take _ s off h).symm
    _ = readSliceBytes (m.take off) s := by rw [h1]
    _ = readSliceBytes m s := readSliceBytes_take m s off h

/-- Modelled from the spec: `crypto.Copy(dst, src)` (the crypto helper
package is not under src/) copies `min(len dst, len src)` bytes from the
source slice into the destination slice. -/
def cryptoCopy (m : List Nat) (dst src : Slice) : List Nat :=
  writeBytes m dst.off ((readSliceBytes m src).take dst.len)

/-- The byte contents of the allocation at the end of `NewBuffer(size)`:
the freshly allocated memory is zeroed, `rand.Read` fills the 32-byte
`canaryref` slice with the random bytes `canary`, and `crypto.Copy` copies
them into the `canaryval` slice (src/core/buffer.go lines 83 to 87). -/
def newBufferMem (pageSize size : Nat) (canary : List Nat) : List Nat :=
  let l := newBufferLayout pageSize size
  let m0 := List.replicate l.memLen 0
  let m1 := writeBytes m0 l.canaryref.off (canary.take 32)
  cryptoCopy m1 l.canaryval l.canaryref

/-- C3: in every buffer built by `NewBuffer(size)`, `canaryref` is the 32
bytes at offset `P - 32` (the last 32 bytes of the preguard page),
`canaryval` is the 32 bytes immediately preceding `Data` inside the inner
region (offset `P + innerLen - size - 32`), and the bytes read through
`canaryval` equal the bytes read through `canaryref` at construction
time. -/
theorem newBuffer_canary_spec (pageSize size : Nat) (canary : List Nat)
    (hP : 32 < pageSize) (hs : 1 ≤ size) (hc : canary.length = 32) :
    (newBufferLayout pageSize size).canaryref = ⟨pageSize - 32, 32⟩ ∧
    (newBufferLayout pageSize size).canaryref.off + 32 =
      (newBufferLayout pageSize size).preguard.off +
        (newBufferLayout pageSize size).preguard.len ∧
    (newBufferLayout pageSize size).canaryval =
      ⟨pageSize + (newBufferLayout pageSize size).innerLen - size - 32,
        32⟩ ∧
    (newBufferLayout pageSize size).canaryval.off + 32 =
      (newBufferLayout pageSize size).Data.off ∧
    (newBufferLayout pageSize size).inner.off ≤
      (newBufferLayout pageSize size).canaryval.off ∧
    readSliceBytes (newBufferMem pageSize size canary)
        (newBufferLayout pageSize size).canaryval =
      readSliceBytes (newBufferMem pageSize size canary)
        (newBufferLayout pageSize size).canaryref := by
  have hP0 : 0 < pageSize := by omega
  have hle : size + 32 ≤ roundToPageSize pageSize (size + 32) :=
    le_roundToPageSize pageSize (size + 32) hP0
  refine ⟨rfl, by simp only [newBufferLayout]; omega, rfl, ?_, ?_, ?_⟩
  · simp only [newBufferLayout]
    omega
  · simp only [newBufferLayout]
    omega
  · have hcanary : canary.take 32 = canary := by
      rw [hc.symm]
      exact List.take_length canary
    set l := newBufferLayout pageSize size with hl
    have hml : l.memLen = 2 * pageSize + roundToPageSize pageSize (size + 32) :=
      rfl
    have href : l.canaryref = ⟨pageSize - 32, 32⟩ := rfl
    have hval :
        l.canaryval =
          ⟨pageSize + roundToPageSize pageSize (size + 32) - size - 32, 32⟩ :=
      rfl
    have hm0len : (List.replicate l.memLen 0).length = l.memLen :=
      List.length_replicate _ _
    have hrefoff : l.canaryref.off = pageSize - 32 := rfl
    have hreflen : l.canaryref.len = 32 := rfl
    have hvaloff : l.canaryval.off =
        pageSize + roundToPageSize pageSize (size + 32) - size - 32 := rfl
    -- the first write: random bytes into canaryref
    have hrefbound : l.canaryref.off + canary.length ≤ l.memLen := by
      rw [hrefoff, hc, hml]
      omega
    have hm1 :
        readSliceBytes
            (writeBytes (List.replicate l.memLen 0) l.canaryref.off
              (canary.take 32))
            l.canaryref = canary := by
      rw [hcanary]
      have : l.canaryref = ⟨l.canaryref.off, canary.length⟩ := by
        rw [href, hc]
      rw [this]
      exact readSliceBytes_writeBytes _ canary _ (by rw [hm0len]; exact hrefbound)
    have hm1len :
        (writeBytes (List.replicate l.memLen 0) l.canaryref.off
            (canary.take 32)).length = l.memLen := by
      rw [hcanary]
      rw [length_writeBytes _ _ _ (by rw [hm0len]; exact hrefbound)]
      exact hm0len
    set m1 := writeBytes (List.replicate l.memLen 0) l.canaryref.off
      (canary.take 32) with hm1def
    -- the copy: canaryval gets the canaryref bytes
    have hcopysrc : (readSliceBytes m1 l.canaryref).take l.canaryval.len
        = canary := by
      rw [hm1, hval, hc.symm]
      exact List.take_length canary
    have hdisj : l.canaryref.off + l.canaryref.len ≤ l.canaryval.off := by
      rw [hrefoff, hreflen, hvaloff]
      omega
    have hvalbound : l.canaryval.off + canary.length ≤ l.memLen := by
      rw [hvaloff, hc, hml]
      omega
    have hread2 :
        readSliceBytes (newBufferMem pageSize size canary) l.canaryval
          = canary := by
      show readSliceBytes (cryptoCopy m1 l.canaryval l.canaryref)
        l.canaryval = canary
      unfold cryptoCopy
      rw [hcopysrc]
      have : l.canaryval = ⟨l.canaryval.off, canary.length⟩ := by
        rw [hval, hc]
      rw [this]
      exact readSliceBytes_writeBytes m1 canary _ (by rw [hm1len]; exact hvalbound)
    have hread1 :
        readSliceBytes (newBufferMem pageSize size canary) l.canaryref
          = canary := by
      show readSliceBytes (cryptoCopy m1 l.canaryval l.canaryref)
        l.canaryref = canary
      unfold cryptoCopy
      rw [hcopysrc]
      rw [readSliceBytes_writeBytes_below m1 canary l.canaryval.off
        l.canaryref (by rw [hm1len, hvaloff, hml]; omega) hdisj]
      exact hm1
    rw [hread1, hread2]

/-- Closed witness for `newBuffer_canary_spec` at `P = 4096`, `size = 5`,
with a concrete 32-byte canary. -/
theorem newBuffer_canary_spec_witness :
    (newBufferLayout 4096 5).canaryref = ⟨4096 - 32, 32⟩ ∧
    (newBufferLayout 4096 5).canaryref.off + 32 =
      (newBufferLayout 4096 5).preguard.off +
        (newBufferLayout 4096 5).preguard.len ∧
    (newBufferLayout 4096 5).canaryval =
      ⟨4096 + (newBufferLayout 4096 5).innerLen - 5 - 32, 32⟩ ∧
    (newBufferLayout 4096 5).canaryval.off + 32 =
      (newBufferLayout 4096 5).Data.off ∧
    (newBufferLayout 4096 5).inner.off ≤
      (newBufferLayout 4096 5).canaryval.off ∧
    readSliceBytes (newBufferMem 4096 5 (List.replicate 32 7))
        (newBufferLayout 4096 5).canaryval =
      readSliceBytes (newBufferMem 4096 5 (List.replicate 32 7))
        (newBufferLayout 4096 5).canaryref :=
  newBuffer_canary_spec 4096 5 (List.replicate 32 7) (by decide) (by decide)
    (by simp)

/-! ### Lifecycle model: buffers, the global registry, and the operation
traces.  Buffer pointers are modelled by indices into a heap of buffer
records; the global `buffers` registry is the list of registered indices in
insertion order.  Each operation returns its result, the new global state,
and the trace of observable actions (syscalls, flag stores, registry
updates, wipes, fatal-handler invocations) it performed, in program
order. -/

/-- The error kinds of the core (`ErrInvalidLength`, `ErrDestroyed`). -/
inductive Err where
  | invalidLength
  | destroyed
  deriving DecidableEq, Repr

/-- Memory protection modes of the memcall adapter. -/
inductive Prot where
  | noAccess
  | readOnly
  | readWrite
  deriving DecidableEq, Repr

/-- The region a protection or locking syscall is applied to. -/
inductive Region where
  | preguardR
  | innerR
  | postguardR
  | wholeR
  deriving DecidableEq, Repr

/-- Observable actions of the core, in program order. -/
inductive Event where
  | alloc (n : Nat)
  | lock (r : Region)
  | unlock (r : Region)
  | protect (r : Region) (p : Prot)
  | rngFill
  | setAlive (v : Bool)
  | setMutable (v : Bool)
  | registryAdd (id : Nat)
  | registryRemove (id : Nat)
  | wipe (id : Nat)
  | free
  | fatal (msg : String)
  deriving DecidableEq, Repr

/-- The `Buffer` record of src/core/buffer.go: the two state flags, the
slice headers (each `none` when the Go slice is nil), and the contents of
the backing allocation (`none` once released). -/
structure Buffer where
  alive : Bool
  mutable : Bool
  Data : Option Slice
  memory : Option (List Nat)
  preguard : Option Slice
  inner : Option Slice
  postguard : Option Slice
  canaryval : Option Slice
  canaryref : Option Slice
  deriving DecidableEq, Repr

/-- `BufferState` of src/core/buffer.go. -/
structure BufferState where
  IsMutable : Bool
  IsDestroyed : Bool
  deriving DecidableEq, Repr

/-- The bytes a Go slice field of the buffer currently views: reading a nil
slice, or any slice of a released allocation, yields no bytes. -/
def Buffer.view (b : Buffer) (s : Option Slice) : List Nat :=
  match b.memory, s with
  | some m, some sl => readSliceBytes m sl
  | _, _ => []

/-- Modelled from the spec: `crypto.Equal` (the crypto helper package is
not under src/) is fixed-time byte-sequence equality; functionally it
decides equality of the two byte sequences. -/
def cryptoEqual (a b : List Nat) : Bool :=
  a == b

/-- The global state: the heap of buffer records and the registry of
registered buffer indices in insertion order. -/
structure GState where
  heap : List Buffer
  registry : List Nat
  deriving DecidableEq, Repr

/-- The initial state: no buffers, empty registry. -/
def initState : GState := ⟨[], []⟩

/-- Result of an operation that either completes in a new state or halts
the process through the fatal handler. -/
inductive Outcome (α : Type) where
  | ok (a : α)
  | panicked (msg : String)
  deriving DecidableEq, Repr

/-- The canary-failure diagnostic of src/core/buffer.go line 187. -/
def canaryMsg : String :=
  "<memguard::core::buffer> canary verification failed; buffer overflow detected"

/-- Modelled from the spec: `Panic` (core code not under src/) wipes every
registered buffer before invoking the fatal handler with the diagnostic;
it does not return.  This is its action trace. -/
def panicEvents (s : GState) (msg : String) : List Event :=
  s.registry.map Event.wipe ++ [Event.fatal msg]

/-- `GetBufferState` of src/core/buffer.go lines 111 to 115. -/
def GetBufferState (b : Buffer) : BufferState :=
  ⟨b.mutable, !b.alive⟩

/-- `NewBuffer` of src/core/buffer.go lines 48 to 106: rejects `size < 1`
with `ErrInvalidLength` before doing anything; otherwise allocates, derives
the slice headers, locks the inner region, fills the canary slices, makes
the guard pages inaccessible, sets `alive` and `mutable`, and appends the
buffer to the global registry.  `canary` is the 32-byte output of the
random source.  Returns the index of the new buffer. -/
def newBuffer (s : GState) (pageSize size : Nat) (canary : List Nat) :
    Except Err Nat × GState × List Event :=
  if size < 1 then
    (Except.error Err.invalidLength, s, [])
  else
    let l := newBufferLayout pageSize size
    let b : Buffer :=
      { alive := true
        mutable := true
        Data := some l.Data
        memory := some (newBufferMem pageSize size canary)
        preguard := some l.preguard
        inner := some l.inner
        postguard := some l.postguard
        canaryval := some l.canaryval
        canaryref := some l.canaryref }
    let id := s.heap.length
    (Except.ok id,
     { heap := s.heap ++ [b], registry := s.registry ++ [id] },
     [Event.alloc l.memLen, Event.lock Region.innerR, Event.rngFill,
      Event.protect Region.preguardR Prot.noAccess,
      Event.protect Region.postguardR Prot.noAccess,
      Event.setAlive true, Event.setMutable true, Event.registryAdd id])

/-- `Freeze` of src/core/buffer.go lines 118 to 138. -/
def freeze (s : GState) (id : Nat) : Except Err Unit × GState × List Event :=
  match s.heap[id]? with
  | none => (Except.ok (), s, [])
  | some b =>
    if !b.alive then
      (Except.error Err.destroyed, s, [])
    else if b.mutable then
      (Except.ok (),
       { s with heap := s.heap.set id { b with mutable := false } },
       [Event.protect Region.innerR Prot.readOnly,
        Event.setMutable false])
    else
      (Except.ok (), s, [])

/-- `Melt` of src/core/buffer.go lines 141 to 161. -/
def melt (s : GState) (id : Nat) : Except Err Unit × GState × List Event :=
  match s.heap[id]? with
  | none => (Except.ok (), s, [])
  | some b =>
    if !b.alive then
      (Except.error Err.destroyed, s, [])
    else if !b.mutable then
      (Except.ok (),
       { s with heap := s.heap.set id { b with mutable := true } },
       [Event.protect Region.innerR Prot.readWrite,
        Event.setMutable true])
    else
      (Except.ok (), s, [])

/-- The buffer record after the field-reset block of `DestroyBuffer`
(src/core/buffer.go lines 206 to 214).  Note that the source resets every
slice field except `inner`. -/
def deadOf (b : Buffer) : Buffer :=
  { alive := false
    mutable := false
    Data := none
    memory := none
    preguard := none
    inner := b.inner
    postguard := none
    canaryval := none
    canaryref := none }

/-- `DestroyBuffer` of src/core/buffer.go lines 170 to 215: returns at once
on a destroyed buffer; otherwise re-protects the whole allocation
read-write, verifies the canary (panicking on mismatch), removes the buffer
from the registry, wipes and unlocks and frees the memory, and resets the
fields. -/
def destroyBuffer (s : GState) (id : Nat) : Outcome GState × List Event :=
  match s.heap[id]? with
  | none => (Outcome.ok s, [])
  | some b =>
    if !b.alive then
      (Outcome.ok s, [])
    else if !(cryptoEqual (b.view b.canaryval) (b.view b.canaryref)) then
      (Outcome.panicked canaryMsg,
       Event.protect Region.wholeR Prot.readWrite ::
         panicEvents s canaryMsg)
    else
      (Outcome.ok
        { heap := s.heap.set id (deadOf b),
          registry := s.registry.erase id },
       [Event.protect Region.wholeR Prot.readWrite,
        Event.registryRemove id, Event.wipe id,
        Event.unlock Region.innerR, Event.free,
        Event.setAlive false, Event.setMutable false])

/-- C7: `NewBuffer(size)` with `size < 1` returns `ErrInvalidLength` and no
buffer, leaving the global state untouched and performing no action at all
(in particular no allocation and no registry update); and the error is
returned exactly when `size < 1`. -/
theorem newBuffer_invalidLength (s : GState) (pageSize size : Nat)
    (canary : List Nat) :
    (size < 1 →
      newBuffer s pageSize size canary =
        (Except.error Err.invalidLength, s, [])) ∧
    (1 ≤ size →
      (newBuffer s pageSize size canary).1 = Except.ok s.heap.length) := by
  constructor
  · intro h
    simp [newBuffer, h]
  · intro h
    simp [newBuffer, Nat.not_lt.mpr h]

/-- Closed witness for `newBuffer_invalidLength`: `size = 0` is rejected
without effect and `size = 1` is accepted. -/
theorem newBuffer_invalidLength_witness :
    newBuffer initState 4096 0 [] =
      (Except.error Err.invalidLength, initState, []) ∧
    (newBuffer initState 4096 1 (List.replicate 32 7)).1 = Except.ok 0 :=
  ⟨(newBuffer_invalidLength initState 4096 0 []).1 (by decide),
   (newBuffer_invalidLength initState 4096 1 (List.replicate 32 7)).2
     (by decide)⟩

/-- C5: for every alive buffer, `Freeze` returns nil and leaves `mutable`
false and `Melt` returns nil and leaves `mutable` true; a call in the
already-current mode returns unchanged state and performs no protection
syscall; for every destroyed buffer both return `ErrDestroyed` without any
state change or action. -/
theorem freeze_melt_spec (s : GState) (id : Nat) (b : Buffer)
    (hb : s.heap[id]? = some b) :
    (b.alive = true →
      (freeze s id).1 = Except.ok () ∧
      ((freeze s id).2.1.heap[id]?.map Buffer.mutable) = some false ∧
      (b.mutable = false → freeze s id = (Except.ok (), s, [])) ∧
      (melt s id).1 = Except.ok () ∧
      ((melt s id).2.1.heap[id]?.map Buffer.mutable) = some true ∧
      (b.mutable = true → melt s id = (Except.ok (), s, []))) ∧
    (b.alive = false →
      freeze s id = (Except.error Err.destroyed, s, []) ∧
      melt s id = (Except.error Err.destroyed, s, [])) := by
  have hlt : id < s.heap.length := by
    by_contra hge
    rw [List.getElem?_eq_none (by omega)] at hb
    exact Option.noConfusion hb
  constructor
  · intro halive
    refine ⟨?_, ?_, ?_, ?_, ?_, ?_⟩
    · cases hm : b.mutable <;> simp [freeze, hb, halive, hm]
    · cases hm : b.mutable <;>
        simp [freeze, hb, halive, hm, List.getElem?_set_self, hlt]
    · intro hm
      simp [freeze, hb, halive, hm]
    · cases hm : b.mutable <;> simp [melt, hb, halive, hm]
    · cases hm : b.mutable <;>
        simp [melt, hb, halive, hm, List.getElem?_set_self, hlt]
    · intro hm
      simp [melt, hb, halive, hm]
  · intro hdead
    constructor
    · simp [freeze, hb, hdead]
    · simp [melt, hb, hdead]

/-- A concrete alive, mutable, canary-intact buffer used by the closed
witnesses: one allocation of four bytes whose canary slices agree. -/
def sampleAlive : Buffer :=
  { alive := true
    mutable := true
    Data := some ⟨3, 1⟩
    memory := some [9, 9, 5, 0]
    preguard := some ⟨0, 1⟩
    inner := some ⟨1, 2⟩
    postguard := some ⟨3, 1⟩
    canaryval := some ⟨1, 1⟩
    canaryref := some ⟨0, 1⟩ }

/-- Closed witness for `freeze_melt_spec` on a one-buffer state. -/
theorem freeze_melt_spec_witness :
    (sampleAlive.alive = true →
      (freeze ⟨[sampleAlive], [0]⟩ 0).1 = Except.ok () ∧
      ((freeze ⟨[sampleAlive], [0]⟩ 0).2.1.heap[0]?.map Buffer.mutable) =
        some false ∧
      (sampleAlive.mutable = false →
        freeze ⟨[sampleAlive], [0]⟩ 0 =
          (Except.ok (), ⟨[sampleAlive], [0]⟩, [])) ∧
      (melt ⟨[sampleAlive], [0]⟩ 0).1 = Except.ok () ∧
      ((melt ⟨[sampleAlive], [0]⟩ 0).2.1.heap[0]?.map Buffer.mutable) =
        some true ∧
      (sampleAlive.mutable = true →
        melt ⟨[sampleAlive], [0]⟩ 0 =
          (Except.ok (), ⟨[sampleAlive], [0]⟩, []))) ∧
    (sampleAlive.alive = false →
      freeze ⟨[sampleAlive], [0]⟩ 0 =
        (Except.error Err.destroyed, ⟨[sampleAlive], [0]⟩, []) ∧
      melt ⟨[sampleAlive], [0]⟩ 0 =
        (Except.error Err.destroyed, ⟨[sampleAlive], [0]⟩, [])) :=
  freeze_melt_spec ⟨[sampleAlive], [0]⟩ 0 sampleAlive rfl

/-- Recognizer for fatal-handler invocations in a trace. -/
def isFatal : Event → Bool
  | Event.fatal _ => true
  | _ => false

/-- C2: `DestroyBuffer` on an alive buffer whose `canaryval` bytes differ
from its `canaryref` bytes invokes the fatal handler exactly once, with the
canary-verification-failure message, after wiping every still-registered
buffer; and none of the normal destruction steps (registry removal, wipe of
this allocation as part of normal destruction, unlock, free, field reset)
complete: the operation yields no successor state and its trace contains no
registry removal, no unlock and no free. -/
theorem destroy_tampered_panics (s : GState) (id : Nat) (b : Buffer)
    (hb : s.heap[id]? = some b) (halive : b.alive = true)
    (hne : b.view b.canaryval ≠ b.view b.canaryref) :
    destroyBuffer s id =
      (Outcome.panicked canaryMsg,
       Event.protect Region.wholeR Prot.readWrite ::
         (s.registry.map Event.wipe ++ [Event.fatal canaryMsg])) ∧
    (destroyBuffer s id).2.filter isFatal = [Event.fatal canaryMsg] ∧
    (∀ i, Event.registryRemove i ∉ (destroyBuffer s id).2) ∧
    (∀ r, Event.unlock r ∉ (destroyBuffer s id).2) ∧
    Event.free ∉ (destroyBuffer s id).2 := by
  have heqf : cryptoEqual (b.view b.canaryval) (b.view b.canaryref) = false := by
    unfold cryptoEqual
    exact beq_eq_false_iff_ne.mpr hne
  have hmain : destroyBuffer s id =
      (Outcome.panicked canaryMsg,
       Event.protect Region.wholeR Prot.readWrite ::
         (s.registry.map Event.wipe ++ [Event.fatal canaryMsg])) := by
    simp [destroyBuffer, hb, halive, heqf, panicEvents]
  refine ⟨hmain, ?_, ?_, ?_, ?_⟩
  · rw [hmain]
    simp [isFatal, List.filter_append, List.filter_eq_nil_iff,
      List.mem_map]
  · intro i
    rw [hmain]
    simp [List.mem_map]
  · intro r
    rw [hmain]
    simp [List.mem_map]
  · rw [hmain]
    simp [List.mem_map]

/-- A concrete alive buffer whose inline canary has been corrupted: the
`canaryval` byte is 5 but the protected `canaryref` byte is 9. -/
def sampleTampered : Buffer :=
  { alive := true
    mutable := true
    Data := some ⟨3, 1⟩
    memory := some [9, 9, 5, 0]
    preguard := some ⟨0, 1⟩
    inner := some ⟨1, 2⟩
    postguard := some ⟨3, 1⟩
    canaryval := some ⟨2, 1⟩
    canaryref := some ⟨0, 1⟩ }

/-- Closed witness for `destroy_tampered_panics` on a one-buffer state. -/
theorem destroy_tampered_panics_witness :
    destroyBuffer ⟨[sampleTampered], [0]⟩ 0 =
      (Outcome.panicked canaryMsg,
       Event.protect Region.wholeR Prot.readWrite ::
         (([0] : List Nat).map Event.wipe ++ [Event.fatal canaryMsg])) ∧
    (destroyBuffer ⟨[sampleTampered], [0]⟩ 0).2.filter isFatal =
      [Event.fatal canaryMsg] ∧
    (∀ i, Event.registryRemove i ∉
      (destroyBuffer ⟨[sampleTampered], [0]⟩ 0).2) ∧
    (∀ r, Event.unlock r ∉ (destroyBuffer ⟨[sampleTampered], [0]⟩ 0).2) ∧
    Event.free ∉ (destroyBuffer ⟨[sampleTampered], [0]⟩ 0).2 :=
  destroy_tampered_panics ⟨[sampleTampered], [0]⟩ 0 sampleTampered rfl rfl
    (by decide)

/-- `DestroyBuffer` on an already-destroyed buffer returns at once:
no state change and no action (src/core/buffer.go lines 176 to 178). -/
theorem destroyBuffer_not_alive (s : GState) (id : Nat) (b : Buffer)
    (hb : s.heap[id]? = some b) (h : b.alive = false) :
    destroyBuffer s id = (Outcome.ok s, []) := by
  simp [destroyBuffer, hb, h]

/-- C4: the first `DestroyBuffer` on an alive buffer with an intact canary
succeeds, leaving `alive` and `mutable` false and `Data`, `memory`,
`preguard`, `postguard`, `canaryref` and `canaryval` all nil; every
subsequent `DestroyBuffer` returns the very same state with an empty trace
(in particular it never reaches the fatal handler), so destroying twice is
observably identical to destroying once. -/
theorem destroy_idempotent (s : GState) (id : Nat) (b : Buffer)
    (hb : s.heap[id]? = some b) (halive : b.alive = true)
    (heq : b.view b.canaryval = b.view b.canaryref) :
    ∃ s1 tr1 db, destroyBuffer s id = (Outcome.ok s1, tr1) ∧
      s1.heap[id]? = some db ∧
      db.alive = false ∧ db.mutable = false ∧
      db.Data = none ∧ db.memory = none ∧
      db.preguard = none ∧ db.postguard = none ∧
      db.canaryref = none ∧ db.canaryval = none ∧
      destroyBuffer s1 id = (Outcome.ok s1, []) := by
  have hlt : id < s.heap.length := by
    by_contra hge
    rw [List.getElem?_eq_none (by omega)] at hb
    exact Option.noConfusion hb
  have heqt : cryptoEqual (b.view b.canaryval) (b.view b.canaryref) = true := by
    unfold cryptoEqual
    exact beq_iff_eq.mpr heq
  refine ⟨⟨s.heap.set id (deadOf b), s.registry.erase id⟩,
    [Event.protect Region.wholeR Prot.readWrite,
     Event.registryRemove id, Event.wipe id,
     Event.unlock Region.innerR, Event.free,
     Event.setAlive false, Event.setMutable false], deadOf b,
    ?_, ?_, rfl, rfl, rfl, rfl, rfl, rfl, rfl, rfl, ?_⟩
  · simp [destroyBuffer, hb, halive, heqt]
  · simp [List.getElem?_set_self, hlt]
  · have hdb : (⟨s.heap.set id (deadOf b), s.registry.erase id⟩ :
        GState).heap[id]? = some (deadOf b) := by
      simp [List.getElem?_set_self, hlt]
    exact destroyBuffer_not_alive _ id (deadOf b) hdb rfl

/-- Closed witness for `destroy_idempotent` on a one-buffer state whose
canary slices agree. -/
theorem destroy_idempotent_witness :
    ∃ s1 tr1 db,
      destroyBuffer ⟨[sampleAlive], [0]⟩ 0 = (Outcome.ok s1, tr1) ∧
      s1.heap[0]? = some db ∧
      db.alive = false ∧ db.mutable = false ∧
      db.Data = none ∧ db.memory = none ∧
      db.preguard = none ∧ db.postguard = none ∧
      db.canaryref = none ∧ db.canaryval = none ∧
      destroyBuffer s1 0 = (Outcome.ok s1, []) :=
  destroy_idempotent ⟨[sampleAlive], [0]⟩ 0 sampleAlive rfl rfl (by decide)

/-! ### The registry-membership invariant -/

/-- The registry invariant: the registry holds each buffer index at most
once, every registered index denotes a heap buffer, and a buffer is
registered exactly when its `alive` flag is set. -/
def regOK (s : GState) : Prop :=
  s.registry.Nodup ∧
  (∀ id ∈ s.registry, id < s.heap.length) ∧
  (∀ id b, s.heap[id]? = some b → (id ∈ s.registry ↔ b.alive = true))

/-- One completed operation of the core API. -/
inductive LOp where
  | newB (pageSize size : Nat) (canary : List Nat)
  | freezeB (id : Nat)
  | meltB (id : Nat)
  | destroyB (id : Nat)

/-- The state reached by one completed operation (a panicking
`DestroyBuffer` halts the process and reaches no state). -/
def applyLOp (s : GState) : LOp → Outcome GState
  | LOp.newB pageSize size canary =>
      Outcome.ok (newBuffer s pageSize size canary).2.1
  | LOp.freezeB id => Outcome.ok (freeze s id).2.1
  | LOp.meltB id => Outcome.ok (melt s id).2.1
  | LOp.destroyB id => (destroyBuffer s id).1

theorem lt_of_getElem?_eq_some {l : List Buffer} {id : Nat} {b : Buffer}
    (h : l[id]? = some b) : id < l.length := by
  by_contra hge
  rw [List.getElem?_eq_none (by omega)] at h
  exact Option.noConfusion h

/-- C6: the initial state satisfies the registry invariant, and every
completed operation (`NewBuffer`, `Freeze`, `Melt`, `DestroyBuffer`)
preserves it: between completed operations the registry contains a buffer
exactly when that buffer is alive. -/
theorem registry_iff_alive_invariant :
    regOK initState ∧
    ∀ s op s2, regOK s → applyLOp s op = Outcome.ok s2 → regOK s2 := by
  constructor
  · refine ⟨List.nodup_nil, ?_, ?_⟩
    · intro id h
      simp [initState] at h
    · intro id b h
      simp [initState] at h
  · rintro s op s2 ⟨hnd, hbnd, hiff⟩ hok
    cases op with
    | newB pageSize size canary =>
      by_cases hsz : size < 1
      · simp [applyLOp, newBuffer, hsz] at hok
        rw [← hok]
        exact ⟨hnd, hbnd, hiff⟩
      · simp [applyLOp, newBuffer, hsz] at hok
        rw [← hok]
        have hfresh : s.heap.length ∉ s.registry := by
          intro hmem
          exact absurd (hbnd _ hmem) (by omega)
        refine ⟨?_, ?_, ?_⟩
        · simp [List.nodup_append, hnd, hfresh]
        · intro id hmem
          simp [List.mem_append] at hmem
          rcases hmem with h | h
          · have := hbnd id h
            simp
            omega
          · simp [h]
        · intro id b hid
          by_cases hlt : id < s.heap.length
          · rw [List.getElem?_append_left hlt] at hid
            have h1 := hiff id b hid
            simp [List.mem_append]
            constructor
            · rintro (h | h)
              · exact (h1.mp h)
              · omega
            · intro h
              exact Or.inl (h1.mpr h)
          · rw [List.getElem?_append_right (by omega)] at hid
            have hlen := lt_of_getElem?_eq_some hid
            simp at hlen
            have hid0 : id = s.heap.length := by omega
            subst hid0
            simp at hid
            rw [← hid]
            simp [List.mem_append]
    | freezeB id =>
      simp only [applyLOp, Outcome.ok.injEq] at hok
      cases hb : s.heap[id]? with
      | none =>
        simp [freeze, hb] at hok
        rw [← hok]
        exact ⟨hnd, hbnd, hiff⟩
      | some b =>
        by_cases ha : b.alive = true
        · by_cases hm : b.mutable = true
          · simp [freeze, hb, ha, hm] at hok
            rw [← hok]
            have hlt := lt_of_getElem?_eq_some hb
            refine ⟨hnd, ?_, ?_⟩
            · intro i hmem
              simpa using hbnd i hmem
            · intro i bi hi
              by_cases hii : i = id
              · subst hii
                rw [List.getElem?_set_self hlt] at hi
                have h2 := hiff i b hb
                simp at hi
                rw [← hi]
                simp_all
              · rw [List.getElem?_set_ne (by omega)] at hi
                exact hiff i bi hi
          · simp [freeze, hb, ha, hm] at hok
            rw [← hok]
            exact ⟨hnd, hbnd, hiff⟩
        · simp [freeze, hb, ha] at hok
          rw [← hok]
          exact ⟨hnd, hbnd, hiff⟩
    | meltB id =>
      simp only [applyLOp, Outcome.ok.injEq] at hok
      cases hb : s.heap[id]? with
      | none =>
        simp [melt, hb] at hok
        rw [← hok]
        exact ⟨hnd, hbnd, hiff⟩
      | some b =>
        by_cases ha : b.alive = true
        · by_cases hm : b.mutable = true
          · simp [melt, hb, ha, hm] at hok
            rw [← hok]
            exact ⟨hnd, hbnd, hiff⟩
          · simp [melt, hb, ha, hm] at hok
            rw [← hok]
            have hlt := lt_of_getElem?_eq_some hb
            refine ⟨hnd, ?_, ?_⟩
            · intro i hmem
              simpa using hbnd i hmem
            · intro i bi hi
              by_cases hii : i = id
              · subst hii
                rw [List.getElem?_set_self hlt] at hi
                have h2 := hiff i b hb
                simp at hi
                rw [← hi]
                simp_all
              · rw [List.getElem?_set_ne (by omega)] at hi
                exact hiff i bi hi
        · simp [melt, hb, ha] at hok
          rw [← hok]
          exact ⟨hnd, hbnd, hiff⟩
    | destroyB id =>
      simp only [applyLOp] at hok
      cases hb : s.heap[id]? with
      | none =>
        simp [destroyBuffer, hb] at hok
        rw [← hok]
        exact ⟨hnd, hbnd, hiff⟩
      | some b =>
        by_cases ha : b.alive = true
        · by_cases hcan :
            cryptoEqual (b.view b.canaryval) (b.view b.canaryref) = true
          · simp [destroyBuffer, hb, ha, hcan] at hok
            rw [← hok]
            have hlt := lt_of_getElem?_eq_some hb
            refine ⟨hnd.erase id, ?_, ?_⟩
            · intro i hmem
              have := hbnd i (List.mem_of_mem_erase hmem)
              simpa using this
            · intro i bi hi
              by_cases hii : i = id
              · subst hii
                rw [List.getElem?_set_self hlt] at hi
                simp at hi
                rw [← hi]
                simp [deadOf, List.Nodup.mem_erase_iff hnd]
              · rw [List.getElem?_set_ne (by omega)] at hi
                rw [List.Nodup.mem_erase_iff hnd]
                have := hiff i bi hi
                simp [hii, this]
          · simp [destroyBuffer, hb, ha, hcan] at hok
        · simp only [destroyBuffer, hb, ha] at hok
          simp at hok
          rw [← hok]
          exact ⟨hnd, hbnd, hiff⟩

/-- Closed witness for `registry_iff_alive_invariant`: the invariant
transported from the initial state across a completed `NewBuffer`. -/
theorem registry_iff_alive_invariant_witness :
    regOK (newBuffer initState 4096 1 (List.replicate 32 7)).2.1 :=
  registry_iff_alive_invariant.2 initState
    (LOp.newB 4096 1 (List.replicate 32 7)) _
    registry_iff_alive_invariant.1 rfl

/-! ### Ordering of registration and the alive flag inside `NewBuffer` -/

/-- Recognizer for the registry-append action. -/
def isRegistryAdd : Event → Bool
  | Event.registryAdd _ => true
  | _ => false

/-- Recognizer for the `alive := true` store. -/
def isSetAliveTrue : Event → Bool
  | Event.setAlive true => true
  | _ => false

/-- Some action matched by `p` occurs strictly before some action matched
by `q` in the trace `tr`. -/
def occursBefore (p q : Event → Bool) (tr : List Event) : Prop :=
  ∃ i j : Fin tr.length, i.val < j.val ∧
    p (tr.get i) = true ∧ q (tr.get j) = true

instance (p q : Event → Bool) (tr : List Event) :
    Decidable (occursBefore p q tr) := by
  unfold occursBefore
  infer_instance

/-- C8 counterexample: in the trace of a concrete successful
`NewBuffer(1)`, no registry append precedes the `alive := true` store, so
the claim that the buffer is registered before `alive` is set fails on the
code (src/core/buffer.go sets `alive` at line 98 and registers at
line 102). -/
theorem newBuffer_register_before_alive_refuted :
    ¬ occursBefore isRegistryAdd isSetAliveTrue
        (newBuffer initState 4096 1 (List.replicate 32 7)).2.2 := by
  decide

/-- C8 amended: in every successful `NewBuffer`, the trace contains exactly
one `alive := true` store and exactly one registry append, and the
`alive := true` store occurs strictly before the registry append. -/
theorem newBuffer_alive_before_register (s : GState)
    (pageSize size : Nat) (canary : List Nat) (hs : 1 ≤ size) :
    (newBuffer s pageSize size canary).2.2.filter isSetAliveTrue =
      [Event.setAlive true] ∧
    (newBuffer s pageSize size canary).2.2.filter isRegistryAdd =
      [Event.registryAdd s.heap.length] ∧
    occursBefore isSetAliveTrue isRegistryAdd
      (newBuffer s pageSize size canary).2.2 := by
  have htr : (newBuffer s pageSize size canary).2.2 =
      [Event.alloc (newBufferLayout pageSize size).memLen,
       Event.lock Region.innerR, Event.rngFill,
       Event.protect Region.preguardR Prot.noAccess,
       Event.protect Region.postguardR Prot.noAccess,
       Event.setAlive true, Event.setMutable true,
       Event.registryAdd s.heap.length] := by
    simp [newBuffer, Nat.not_lt.mpr hs]
  rw [htr]
  refine ⟨?_, ?_, ?_⟩
  · simp [List.filter, isSetAliveTrue]
  · simp [List.filter, isRegistryAdd]
  · exact ⟨⟨5, by norm_num⟩, ⟨7, by norm_num⟩, by norm_num, rfl, rfl⟩

/-- Closed witness for `newBuffer_alive_before_register` at a concrete
successful call. -/
theorem newBuffer_alive_before_register_witness :
    (newBuffer initState 4096 1 (List.replicate 32 7)).2.2.filter
        isSetAliveTrue = [Event.setAlive true] ∧
    (newBuffer initState 4096 1 (List.replicate 32 7)).2.2.filter
        isRegistryAdd = [Event.registryAdd initState.heap.length] ∧
    occursBefore isSetAliveTrue isRegistryAdd
      (newBuffer initState 4096 1 (List.replicate 32 7)).2.2 :=
  newBuffer_alive_before_register initState 4096 1 (List.replicate 32 7)
    (by decide)

/-! ### The `BufferList` registry with a Go-slice heap model

To settle aliasing questions, the registry is modelled at the level of Go
slice headers: a heap of backing arrays (each array a list whose length is
the capacity of the allocation; elements are buffer pointers modelled as
naturals) and the `l.list` field as an optional slice header over one of
them (`none` is the nil slice).  `append`, `copy` and `make` act on the
heap exactly as the Go runtime does: in-place writes while capacity
suffices, a fresh backing array otherwise. -/

/-- A Go slice header: backing array id, length, capacity. -/
structure GoSlice where
  arr : Nat
  len : Nat
  cap : Nat
  deriving DecidableEq, Repr

/-- `BufferList` of src/core/buffer.go: the heap of backing arrays plus
the `list` field. -/
structure BufferList where
  heap : List (List Nat)
  list : Option GoSlice
  deriving DecidableEq, Repr

/-- The contents of backing array `a`. -/
def readArr (h : List (List Nat)) (a : Nat) : List Nat :=
  (h[a]?).getD []

/-- The elements visible through slice header `s`. -/
def sliceContents (h : List (List Nat)) (s : GoSlice) : List Nat :=
  (readArr h s.arr).take s.len

/-- The elements of `l.list` (empty for the nil slice). -/
def contents (l : BufferList) : List Nat :=
  match l.list with
  | none => []
  | some s => sliceContents l.heap s

/-- In-place write of element `i` of backing array `a`. -/
def writeArr (h : List (List Nat)) (a i v : Nat) : List (List Nat) :=
  h.set a ((readArr h a).set i v)

/-- Well-formedness of the slice header over the heap: the backing array
exists, `len ≤ cap`, and the backing array has exactly `cap` slots. -/
def BufferList.WF (l : BufferList) : Prop :=
  match l.list with
  | none => True
  | some s =>
      s.arr < l.heap.length ∧ s.len ≤ s.cap ∧
      (readArr l.heap s.arr).length = s.cap

/-- `BufferList.Add` of src/core/buffer.go lines 224 to 229:
`l.list = append(l.list, b)`.  Appending to the nil slice allocates a
one-slot array; within capacity the element is written in place; beyond
capacity the runtime allocates a larger backing array (modelled with
capacity `2*len + 1`; the claims are insensitive to the growth factor) and
copies. -/
def BufferList.Add (l : BufferList) (b : Nat) : BufferList :=
  match l.list with
  | none =>
      { heap := l.heap ++ [[b]], list := some ⟨l.heap.length, 1, 1⟩ }
  | some s =>
      if s.len < s.cap then
        { heap := writeArr l.heap s.arr s.len b,
          list := some ⟨s.arr, s.len + 1, s.cap⟩ }
      else
        { heap := l.heap ++
            [sliceContents l.heap s ++ b :: List.replicate s.len 0],
          list := some ⟨l.heap.length, s.len + 1, 2 * s.len + 1⟩ }

/-- The backing array after
`l.list = append(l.list[:i], l.list[i+1:]...)`: elements `i+1 .. len-1`
move one slot down in place; the slot at `len-1` keeps its stale value. -/
def removeShift (a : List Nat) (i len : Nat) : List Nat :=
  a.take i ++ ((a.drop (i + 1)).take (len - 1 - i)) ++ a.drop (len - 1)

/-- `BufferList.Remove` of src/core/buffer.go lines 232 to 242: removes
the first occurrence of `b`, if any, by shifting the tail down in place
and shortening the header by one. -/
def BufferList.Remove (l : BufferList) (b : Nat) : BufferList :=
  match l.list with
  | none => l
  | some s =>
      match (sliceContents l.heap s).findIdx? (fun x => x == b) with
      | none => l
      | some i =>
          { heap := l.heap.set s.arr
              (removeShift (readArr l.heap s.arr) i s.len),
            list := some ⟨s.arr, s.len - 1, s.cap⟩ }

/-- `BufferList.Exists` of src/core/buffer.go lines 245 to 256: linear
scan for pointer equality. -/
def BufferList.Exists (l : BufferList) (b : Nat) : Bool :=
  (contents l).contains b

/-- `BufferList.Empty` of src/core/buffer.go lines 259 to 269:
`make` a fresh array of the current length, `copy` the elements into it,
set `l.list = nil`, and return the snapshot slice. -/
def BufferList.Empty (l : BufferList) : GoSlice × BufferList :=
  let n := match l.list with | none => 0 | some s => s.len
  let newArr :=
    (contents l).take n ++ List.replicate (n - (contents l).length) 0
  (⟨l.heap.length, n, n⟩, { heap := l.heap ++ [newArr], list := none })

theorem readArr_append_self (h : List (List Nat)) (x : List Nat) :
    readArr (h ++ [x]) h.length = x := by
  simp [readArr, List.getElem?_append_right (Nat.le_refl h.length)]

theorem readArr_append_lt (h l2 : List (List Nat)) (a : Nat)
    (ha : a < h.length) : readArr (h ++ l2) a = readArr h a := by
  simp [readArr, List.getElem?_append_left ha]

theorem readArr_set_self (h : List (List Nat)) (x : List Nat) (a : Nat)
    (ha : a < h.length) : readArr (h.set a x) a = x := by
  simp [readArr, List.getElem?_set_self ha]

theorem readArr_set_ne (h : List (List Nat)) (x : List Nat) (a a2 : Nat)
    (hne : a2 ≠ a) : readArr (h.set a x) a2 = readArr h a2 := by
  simp [readArr, List.getElem?_set_ne (by omega : a ≠ a2)]

theorem take_succ_set (a : List Nat) (n v : Nat) (h : n < a.length) :
    (a.set n v).take (n + 1) = a.take n ++ [v] := by
  rw [List.set_eq_take_append_cons_drop, if_pos h]
  have hlen : (a.take n).length = n := by
    simp
    omega
  rw [show n + 1 = (a.take n).length + 1 by omega, List.take_append]
  simp

/-- Under well-formedness the visible contents have exactly `len`
elements. -/
theorem length_contents (l : BufferList) (hwf : l.WF) (s : GoSlice)
    (hs : l.list = some s) : (contents l).length = s.len := by
  unfold BufferList.WF at hwf
  rw [hs] at hwf
  obtain ⟨h1, h2, h3⟩ := hwf
  simp [contents, hs, sliceContents]
  omega

/-- C9: `Empty` (Drain) returns a snapshot holding exactly the previous
contents of the registry and leaves the internal list nil; an immediately
subsequent `Empty` returns an empty snapshot; after a drain, `Exists` is
false for every buffer; and `Add` appends, so the contents are kept in
insertion order. -/
theorem empty_drains (l : BufferList) (hwf : l.WF) :
    sliceContents (l.Empty).2.heap (l.Empty).1 = contents l ∧
    contents (l.Empty).2 = [] ∧
    ((l.Empty).2.Empty).1.len = 0 ∧
    sliceContents ((l.Empty).2.Empty).2.heap ((l.Empty).2.Empty).1 = [] ∧
    (∀ b, (l.Empty).2.Exists b = false) ∧
    (∀ m : BufferList, ∀ b, m.WF →
      contents (m.Add b) = contents m ++ [b]) := by
  refine ⟨?_, ?_, ?_, ?_, ?_, ?_⟩
  · cases hl : l.list with
    | none =>
      simp [BufferList.Empty, hl, sliceContents, contents]
    | some s =>
      have hclen := length_contents l hwf s hl
      simp only [BufferList.Empty, hl]
      rw [sliceContents, readArr_append_self]
      rw [hclen, Nat.sub_self]
      simp only [List.replicate, List.append_nil]
      rw [← hclen, List.take_length, List.take_length]
  · simp [BufferList.Empty, contents]
  · simp [BufferList.Empty]
  · simp [BufferList.Empty, sliceContents]
  · intro b
    simp [BufferList.Exists, BufferList.Empty, contents]
  · intro m b hmwf
    cases hm : m.list with
    | none =>
      simp [BufferList.Add, hm, contents, sliceContents,
        readArr_append_self]
    | some s =>
      unfold BufferList.WF at hmwf
      rw [hm] at hmwf
      obtain ⟨h1, h2, h3⟩ := hmwf
      have hclen := length_contents m (by rw [BufferList.WF, hm]; exact ⟨h1, h2, h3⟩) s hm
      by_cases hlt : s.len < s.cap
      · simp only [BufferList.Add, hm, if_pos hlt]
        simp only [contents, sliceContents, hm]
        rw [writeArr, readArr_set_self _ _ _ h1]
        rw [take_succ_set _ _ _ (by omega)]
      · simp only [BufferList.Add, hm, if_neg hlt]
        simp only [contents, sliceContents, hm]
        rw [readArr_append_self]
        have hcl : (readArr m.heap s.arr).take s.len =
            contents m := by
          simp [contents, hm, sliceContents]
        rw [hcl]
        have hclen2 : (contents m).length = s.len := by
          simp [contents, hm, sliceContents]
          omega
        rw [show s.len + 1 = (contents m).length + 1 by omega,
          List.take_append]
        simp

/-- A concrete well-formed registry used by the closed witnesses: one
backing array of two slots holding buffers 4 and 9. -/
def sampleList : BufferList :=
  { heap := [[4, 9]], list := some ⟨0, 2, 2⟩ }

theorem sampleList_wf : sampleList.WF :=
  ⟨by decide, by decide, by decide⟩

/-- Closed witness for `empty_drains` on `sampleList`. -/
theorem empty_drains_witness :
    sliceContents (sampleList.Empty).2.heap (sampleList.Empty).1 =
      contents sampleList ∧
    contents (sampleList.Empty).2 = [] ∧
    ((sampleList.Empty).2.Empty).1.len = 0 ∧
    sliceContents ((sampleList.Empty).2.Empty).2.heap
      ((sampleList.Empty).2.Empty).1 = [] ∧
    (∀ b, (sampleList.Empty).2.Exists b = false) ∧
    (∀ m : BufferList, ∀ b, m.WF →
      contents (m.Add b) = contents m ++ [b]) :=
  empty_drains sampleList sampleList_wf

/-- One subsequent registry operation. -/
inductive RegOp where
  | add (b : Nat)
  | remove (b : Nat)
  | drain

def applyRegOp (l : BufferList) : RegOp → BufferList
  | RegOp.add b => l.Add b
  | RegOp.remove b => l.Remove b
  | RegOp.drain => (l.Empty).2

def applyRegOps (l : BufferList) : List RegOp → BufferList
  | [] => l
  | op :: ops => applyRegOps (applyRegOp l op) ops

/-- The registry is well formed, backing array `a` exists, and the
registry does not view array `a`. -/
def Avoids (l : BufferList) (a : Nat) : Prop :=
  l.WF ∧ a < l.heap.length ∧
  (match l.list with | none => True | some s => s.arr ≠ a)

theorem applyRegOp_avoids (l : BufferList) (a : Nat) (op : RegOp)
    (h : Avoids l a) :
    Avoids (applyRegOp l op) a ∧
    readArr (applyRegOp l op).heap a = readArr l.heap a := by
  obtain ⟨hwf, hlt, hne⟩ := h
  cases op with
  | add b =>
    cases hl : l.list with
    | none =>
      simp only [applyRegOp, BufferList.Add, hl]
      refine ⟨⟨?_, ?_, ?_⟩, ?_⟩
      · rw [BufferList.WF]
        refine ⟨by simp, Nat.le_refl 1, ?_⟩
        rw [readArr_append_self]
        rfl
      · simp
        omega
      · simp
        omega
      · exact readArr_append_lt _ _ _ hlt
    | some s =>
      rw [BufferList.WF, hl] at hwf
      obtain ⟨harr, hlc, harrl⟩ := hwf
      rw [hl] at hne
      by_cases hcap : s.len < s.cap
      · simp only [applyRegOp, BufferList.Add, hl, if_pos hcap]
        refine ⟨⟨?_, ?_, ?_⟩, ?_⟩
        · rw [BufferList.WF]
          refine ⟨by simp [writeArr]; omega,
            by show s.len + 1 ≤ s.cap; omega, ?_⟩
          rw [writeArr, readArr_set_self _ _ _ harr]
          simp
          omega
        · simp [writeArr]
          omega
        · simpa using hne
        · exact readArr_set_ne _ _ _ _ (by omega)
      · simp only [applyRegOp, BufferList.Add, hl, if_neg hcap]
        have hscl : (sliceContents l.heap s).length = s.len := by
          simp [sliceContents]
          omega
        refine ⟨⟨?_, ?_, ?_⟩, ?_⟩
        · rw [BufferList.WF]
          refine ⟨by simp, by show s.len + 1 ≤ 2 * s.len + 1; omega, ?_⟩
          rw [readArr_append_self]
          simp [hscl]
          omega
        · simp
          omega
        · simp
          omega
        · exact readArr_append_lt _ _ _ hlt
  | remove b =>
    cases hl : l.list with
    | none =>
      have hres : applyRegOp l (RegOp.remove b) = l := by
        simp [applyRegOp, BufferList.Remove, hl]
      rw [hres]
      exact ⟨⟨hwf, hlt, hne⟩, rfl⟩
    | some s =>
      rw [BufferList.WF, hl] at hwf
      obtain ⟨harr, hlc, harrl⟩ := hwf
      rw [hl] at hne
      cases hidx : (sliceContents l.heap s).findIdx? (fun x => x == b) with
      | none =>
        have hres : applyRegOp l (RegOp.remove b) = l := by
          simp [applyRegOp, BufferList.Remove, hl, hidx]
        rw [hres]
        refine ⟨⟨?_, hlt, ?_⟩, rfl⟩
        · rw [BufferList.WF, hl]
          exact ⟨harr, hlc, harrl⟩
        · rw [hl]
          exact hne
      | some i =>
        have hi : i < s.len := by
          rw [List.findIdx?_eq_some_iff_getElem] at hidx
          obtain ⟨hilen, _, _⟩ := hidx
          have : (sliceContents l.heap s).length = s.len := by
            simp [sliceContents]
            omega
          omega
        simp only [applyRegOp, BufferList.Remove, hl, hidx]
        refine ⟨⟨?_, ?_, ?_⟩, ?_⟩
        · rw [BufferList.WF]
          refine ⟨by simp; omega, by show s.len - 1 ≤ s.cap; omega, ?_⟩
          rw [readArr_set_self _ _ _ harr]
          simp [removeShift]
          omega
        · simp
          omega
        · simpa using hne
        · exact readArr_set_ne _ _ _ _ (by omega)
  | drain =>
    simp only [applyRegOp, BufferList.Empty]
    refine ⟨⟨?_, ?_, ?_⟩, ?_⟩
    · rw [BufferList.WF]
      exact trivial
    · simp
      omega
    · exact trivial
    · exact readArr_append_lt _ _ _ hlt

theorem applyRegOps_avoids (ops : List RegOp) (l : BufferList) (a : Nat)
    (h : Avoids l a) :
    Avoids (applyRegOps l ops) a ∧
    readArr (applyRegOps l ops).heap a = readArr l.heap a := by
  induction ops generalizing l with
  | nil => exact ⟨h, rfl⟩
  | cons op ops ih =>
    obtain ⟨h1, h2⟩ := applyRegOp_avoids l a op h
    obtain ⟨h3, h4⟩ := ih (applyRegOp l op) h1
    refine ⟨h3, ?_⟩
    simp only [applyRegOps]
    rw [h4, h2]

/-- C10: the snapshot returned by `Empty` is a fresh copy: after any
sequence of subsequent `Add`, `Remove` or `Empty` calls on the registry,
reading the snapshot slice yields the same elements as immediately after
the drain (the snapshot does not alias the registry's internal
storage). -/
theorem empty_snapshot_unaliased (l : BufferList) (hwf : l.WF)
    (ops : List RegOp) :
    sliceContents (applyRegOps (l.Empty).2 ops).heap (l.Empty).1 =
      sliceContents (l.Empty).2.heap (l.Empty).1 := by
  have hav : Avoids (l.Empty).2 (l.Empty).1.arr := by
    refine ⟨?_, ?_, ?_⟩
    · rw [BufferList.WF]
      exact trivial
    · simp [BufferList.Empty]
    · exact trivial
  obtain ⟨h1, h2⟩ := applyRegOps_avoids ops (l.Empty).2 (l.Empty).1.arr hav
  simp only [sliceContents]
  rw [h2]

/-- Closed witness for `empty_snapshot_unaliased`: drain `sampleList`,
then add, remove and drain again; the snapshot reads unchanged. -/
theorem empty_snapshot_unaliased_witness :
    sliceContents (applyRegOps (sampleList.Empty).2
        [RegOp.add 5, RegOp.remove 4, RegOp.drain]).heap
      (sampleList.Empty).1 =
      sliceContents (sampleList.Empty).2.heap (sampleList.Empty).1 :=
  empty_snapshot_unaliased sampleList sampleList_wf
    [RegOp.add 5, RegOp.remove 4, RegOp.drain]

end Memguard
